import Mathlib

/-!
Verification of the hydrogen-bond detection module (`hbond.py`):
a shallow embedding of `hbond`, `_hbond`, `_get_bonded_hydrogens`,
`_is_hbond` and `hbond_frequency`, followed by theorems about them.

Scalars are modelled as rationals.  The geometry primitives
(`distance`, `angle` from the `geometry` module) and the spatial index
(`CellList` from the `celllist` module) are external collaborators of
this module; they are modelled abstractly, see `Geometry` below.
-/

namespace HBond

/-- A 3-D point. -/
abbrev Coord := ℚ × ℚ × ℚ

/-- A Donor-H-Acceptor triplet: donor index (an `Int`, since the donor
comes out of the `-1`-initialised association table), hydrogen index,
acceptor index. -/
abbrev Triplet := Int × ℕ × ℕ

/-- Modelled from the spec: the external collaborators consumed by the
module — `GeometryOps` (`dist : pointsA × pointsB → scalar`, `ang :
(A, B, C) → radians`), the circle constant `pi` used by the
degrees-to-radians conversion, and the `SpatialIndex` (`inCell cellSize
query ref` answers whether reference point `ref` lies in the same or a
neighboring grid cell as query point `q`; it is a bucket index, only
required to be a superset of true-distance neighbors — see
`BroadSound`). -/
structure Geometry where
  dist : Coord → Coord → ℚ
  ang : Coord → Coord → Coord → ℚ
  pi : ℚ
  inCell : ℚ → Coord → Coord → Bool

/-- `np.deg2rad`: degrees to radians. -/
def deg2rad (G : Geometry) (x : ℚ) : ℚ :=
  x * G.pi / 180

/-- Modelled from the spec: the spatial index's contract — every
reference point within `cellSize` distance of the query shares or
neighbors its grid cell (the index returns a superset of true-distance
neighbors). -/
def BroadSound (G : Geometry) : Prop :=
  ∀ (cellSize : ℚ) (q r : Coord), G.dist r q ≤ cellSize → G.inCell cellSize q r = true

/-- An `AtomArrayStack`: per-atom identity attributes (`element`,
`res_id`, shared by all models) and per-model coordinate rows. -/
structure AtomStack where
  elements : List String
  resIds : List Int
  coords : List (List Coord)

namespace AtomStack

/-- `array_length()`: the number of atoms. -/
def length (s : AtomStack) : ℕ := s.elements.length

/-- `stack_depth()`: the number of models. -/
def stackDepth (s : AtomStack) : ℕ := s.coords.length

/-- `coord[m, i]`: coordinate of atom `i` in model `m`. -/
def coordAt (s : AtomStack) (m i : ℕ) : Coord := (s.coords.getD m []).getD i (0, 0, 0)

/-- `element[i]`. -/
def elementAt (s : AtomStack) (i : ℕ) : String := s.elements.getD i ""

/-- `res_id[i]`. -/
def resIdAt (s : AtomStack) (i : ℕ) : Int := s.resIds.getD i 0

end AtomStack

/-- The per-hydrogen acceptance test inside `_get_bonded_hydrogens`:
atom `i` is claimed by donor `d` iff `i` is a hydrogen, shares the
donor's residue id, and its model-0 distance to the donor is within the
bonding cutoff (`distances <= cutoff`). -/
def claimsHyd (G : Geometry) (s : AtomStack) (cutoff : ℚ) (d i : ℕ) : Bool :=
  (s.elementAt i == "H") && (s.resIdAt i == s.resIdAt d)
    && decide (G.dist (s.coordAt 0 d) (s.coordAt 0 i) ≤ cutoff)

/-- One iteration of the donor loop of `_get_bonded_hydrogens`: for
donor `d`, set `donor_hydrogen_mask[i] = True` and
`associated_donor_indices[i] = d` at every claimed hydrogen `i`. -/
def hydStep (G : Geometry) (s : AtomStack) (cutoff : ℚ)
    (st : List Bool × List Int) (d : ℕ) : List Bool × List Int :=
  (List.range s.length).foldl
    (fun st i =>
      if claimsHyd G s cutoff d i then (st.1.set i true, st.2.set i (d : Int)) else st)
    st

/-- `np.where(donor_mask)[0]`: the indices set in `donorMask`, ascending. -/
def donorIndicesOf (s : AtomStack) (donorMask : List Bool) : List ℕ :=
  (List.range s.length).filter (fun d => donorMask.getD d false)

/-- `_get_bonded_hydrogens(array, donor_mask, cutoff)`, where `array`
is `atoms[0]` (only `element`, `res_id` and the model-0 coordinates are
read): returns the `donor_hydrogen_mask` and the
`associated_donor_indices` table (initialised to `-1`). -/
def getBondedHydrogens (G : Geometry) (s : AtomStack) (donorMask : List Bool) (cutoff : ℚ) :
    List Bool × List Int :=
  (donorIndicesOf s donorMask).foldl (hydStep G s cutoff)
    (List.replicate s.length false, List.replicate s.length (-1))

/-- `_is_hbond(donor, donor_h, acceptor, cutoff_dist, cutoff_angle)`:
`theta > deg2rad(cutoff_angle)` (strict) and `dist <= cutoff_dist`
(inclusive). -/
def is_hbond (G : Geometry) (cd ca : ℚ) (dc hc ac : Coord) : Bool :=
  decide (deg2rad G ca < G.ang dc hc ac) && decide (G.dist hc ac ≤ cd)

/-- The per-model validity column of one candidate triplet: the
narrow-phase test `_is_hbond` applied to the triplet's coordinates in
each model (`coord[:, triplets[:, k]]`; the donor index is an `Int`
read from the association table, used as a coordinate row index). -/
def tripletCol (G : Geometry) (s : AtomStack) (cd ca : ℚ) (t : Triplet) : List Bool :=
  (List.range s.stackDepth).map (fun m =>
    is_hbond G cd ca (s.coordAt m t.1.toNat) (s.coordAt m t.2.1) (s.coordAt m t.2.2))

/-- The broad phase for one (acceptor, donor-hydrogen) pair:
`possible_bonds[a_i][h_i]` — true iff in some model the acceptor's cell
query hits the donor-hydrogen (the per-model cell masks are OR-ed). -/
def broadHit (G : Geometry) (s : AtomStack) (cd : ℚ) (a h : ℕ) : Bool :=
  (List.range s.stackDepth).any (fun m => G.inCell cd (s.coordAt m a) (s.coordAt m h))

/-- `donor_h_i = np.where(donor_h_mask)[0]` computed from the
association pass (bonding cutoff is the default `1.5`). -/
def donorHIOf (G : Geometry) (s : AtomStack) (dm : List Bool) : List ℕ :=
  (List.range s.length).filter
    (fun i => (getBondedHydrogens G s dm (mkRat 3 2)).1.getD i false)

/-- `acceptor_i = np.where(acceptor_mask)[0]`. -/
def acceptorIOf (s : AtomStack) (am : List Bool) : List ℕ :=
  (List.range s.length).filter (fun i => am.getD i false)

/-- `np.where(possible_bonds)` in row-major order: the broad-phase
surviving (acceptor index, donor-hydrogen index) pairs. -/
def candidatePairs (G : Geometry) (s : AtomStack) (cd : ℚ) (aI dHI : List ℕ) :
    List (ℕ × ℕ) :=
  (aI.map (fun a => dHI.filterMap (fun h =>
      if broadHit G s cd a h then some (a, h) else none))).flatten

/-- The pruned (triplet, per-model validity column) table of `_hbond`:
triplet construction from the surviving pairs, the donor≠acceptor
filter, the narrow phase, and the prune of never-valid columns. -/
def countedOf (G : Geometry) (s : AtomStack) (dm am : List Bool) (cd ca : ℚ) :
    List (Triplet × List Bool) :=
  let pairs := candidatePairs G s cd (acceptorIOf s am) (donorHIOf G s dm)
  let trip0 : List Triplet :=
    pairs.map (fun p => ((getBondedHydrogens G s dm (mkRat 3 2)).2.getD p.2 (-1), p.2, p.1))
  let trips := trip0.filter (fun t => t.1 != (t.2.2 : Int))
  (trips.map (fun t => (t, tripletCol G s cd ca t))).filter (fun c => c.2.any id)

/-- The body of `_hbond` after the in-place element filtering (`&=`)
of the two masks: donor-hydrogen resolution on model 0, the early
empty return, broad phase, triplet construction, donor≠acceptor
filter, narrow phase, and the prune of never-valid columns. -/
def coreFiltered (G : Geometry) (s : AtomStack) (dm am : List Bool) (cd ca : ℚ) :
    List Triplet × List (List Bool) :=
  if (donorHIOf G s dm).isEmpty || (acceptorIOf s am).isEmpty then
    ([], List.replicate s.stackDepth [])
  else
    ((countedOf G s dm am cd ca).map (·.1),
     (List.range s.stackDepth).map
       (fun m => (countedOf G s dm am cd ca).map (fun c => c.2.getD m false)))

/-- `_hbond(atoms, donor_mask, acceptor_mask, ...)` for the
non-aliased case (the two mask arguments are distinct arrays): the two
`&=` element filters mutate the caller's arrays in place, so the final
states of those arrays are returned alongside the result. -/
def hbondCore (G : Geometry) (s : AtomStack) (dmIn amIn dem aem : List Bool) (cd ca : ℚ) :
    (List Triplet × List (List Bool)) × (List Bool × List Bool) :=
  let dm := List.zipWith (· && ·) dmIn dem
  let am := List.zipWith (· && ·) amIn aem
  (coreFiltered G s dm am cd ca, (dm, am))

/-- `_hbond` for the aliased case (`donor_mask` and `acceptor_mask`
are the same array, as happens for the (overlap, overlap) pairing):
after `donor_mask &= donor_element_mask; acceptor_mask &=
acceptor_element_mask` the one shared array holds `sel & dem & aem`,
and both later reads see it. -/
def hbondCoreAliased (G : Geometry) (s : AtomStack) (sel dem aem : List Bool) (cd ca : ℚ) :
    (List Triplet × List (List Bool)) × List Bool :=
  let m := List.zipWith (· && ·) (List.zipWith (· && ·) sel dem) aem
  (coreFiltered G s m m cd ca, m)

/-- The `selection_combinations` list of the `'both'` branch. -/
def selectionCombinations : List (ℕ × ℕ) :=
  [(0, 1), (0, 2), (1, 0), (1, 2), (2, 0), (2, 1), (2, 2)]

/-- One iteration of the combination loop of the `'both'` branch.  The
state is the current contents of the three selection arrays (they are
mutated in place by `_hbond`'s `&=`, and later iterations read the
mutated arrays) together with the accumulated per-pairing results.  A
pairing is evaluated only if both its masks are currently nonzero. -/
def bothStep (G : Geometry) (s : AtomStack) (dem aem : List Bool) (cd ca : ℚ)
    (st : List (List Bool) × List (List Triplet × List (List Bool)))
    (combo : ℕ × ℕ) : List (List Bool) × List (List Triplet × List (List Bool)) :=
  let dmSel := st.1.getD combo.1 []
  let amSel := st.1.getD combo.2 []
  if dmSel.any id && amSel.any id then
    if combo.1 == combo.2 then
      let r := hbondCoreAliased G s dmSel dem aem cd ca
      (st.1.set combo.1 r.2, st.2 ++ [r.1])
    else
      let r := hbondCore G s dmSel amSel dem aem cd ca
      ((st.1.set combo.1 r.2.1).set combo.2 r.2.2, st.2 ++ [r.1])
  else st

/-- The result of `hbond` on a stack: the triplet rows, the
(models × triplets) presence mask, and the final states of the two
caller-supplied selection arrays after the call. -/
structure HbondOut where
  triplets : List Triplet
  mask : List (List Bool)
  fsel1 : List Bool
  fsel2 : List Bool
  deriving Repr, DecidableEq

/-- The `'both'` branch's accumulated per-pairing results: the two
selections are split into {exclusive-1, exclusive-2, overlap} and the
combination loop is folded over `selection_combinations`. -/
def bothResultsOf (G : Geometry) (s : AtomStack) (dem aem : List Bool) (cd ca : ℚ)
    (sel1 sel2 : List Bool) : List (List Triplet × List (List Bool)) :=
  let overlap := List.zipWith (· && ·) sel1 sel2
  let excl1 := List.zipWith (fun a b => a && !b) sel1 overlap
  let excl2 := List.zipWith (fun a b => a && !b) sel2 overlap
  (selectionCombinations.foldl (bothStep G s dem aem cd ca) ([excl1, excl2, overlap], [])).2

/-- `hbond(atoms, selection1, selection2, selection1_type, cutoff_dist,
cutoff_angle, donor_elements, acceptor_elements)` on a stack, with
both selections supplied.  `np.concatenate` of an empty list and an
unknown `selection1_type` raise; both are modelled as `Except.error`. -/
def hbond (G : Geometry) (s : AtomStack) (sel1 sel2 : List Bool) (selType : String)
    (cd ca : ℚ) (de ae : List String) : Except String HbondOut :=
  let dem := s.elements.map (fun e => de.contains e)
  let aem := s.elements.map (fun e => ae.contains e)
  if selType = "both" then
    let res2 := bothResultsOf G s dem aem cd ca sel1 sel2
    if res2.isEmpty then Except.error "need at least one array to concatenate"
    else Except.ok
      { triplets := (res2.map (·.1)).flatten
        mask := (List.range s.stackDepth).map
          (fun m => (res2.map (fun r => r.2.getD m [])).flatten)
        fsel1 := sel1
        fsel2 := sel2 }
  else if selType = "donor" then
    let r := hbondCore G s sel1 sel2 dem aem cd ca
    Except.ok { triplets := r.1.1, mask := r.1.2, fsel1 := r.2.1, fsel2 := r.2.2 }
  else if selType = "acceptor" then
    let r := hbondCore G s sel2 sel1 dem aem cd ca
    Except.ok { triplets := r.1.1, mask := r.1.2, fsel1 := r.2.2, fsel2 := r.2.1 }
  else Except.error ("Unkown selection type " ++ selType)

/-- `hbond_frequency(mask)`: `mask.sum(axis=0) / len(mask)`.  The
column count of the (possibly zero-row) mask is passed explicitly,
standing for the array's static shape. -/
def hbond_frequency (nCols : ℕ) (mask : List (List Bool)) : List ℚ :=
  (List.range nCols).map (fun j =>
    (mask.map (fun row => if row.getD j false then (1 : ℚ) else 0)).sum / (mask.length : ℚ))

/-! ### Generic list lemmas -/

lemma getD_map_range {α : Type} (f : ℕ → α) (n m : ℕ) (d : α) :
    ((List.range n).map f).getD m d = if m < n then f m else d := by
  rcases Nat.lt_or_ge m n with h | h
  · rw [List.getD_eq_getElem?_getD, List.getElem?_map, List.getElem?_range h, if_pos h]
    rfl
  · rw [List.getD_eq_getElem?_getD, List.getElem?_eq_none (by simpa using h),
      if_neg (Nat.not_lt.2 h)]
    rfl

lemma map_range_getD {α : Type} (l : List α) (d : α) :
    (List.range l.length).map (fun m => l.getD m d) = l := by
  apply List.ext_getElem
  · simp
  · intro i h1 h2
    simp only [List.getElem_map, List.getElem_range]
    rw [List.getD_eq_getElem l d h2]

lemma getD_map_of_lt {α β : Type} (l : List α) (f : α → β) (j : ℕ) (d : β) (e : α)
    (h : j < l.length) : (l.map f).getD j d = f (l.getD j e) := by
  rw [List.getD_eq_getElem _ _ (by simpa using h), List.getElem_map,
    List.getD_eq_getElem l e h]

lemma length_filter_mono {α : Type} (l : List α) (p q : α → Bool)
    (h : ∀ x ∈ l, p x = true → q x = true) :
    (l.filter p).length ≤ (l.filter q).length := by
  rw [← List.countP_eq_length_filter, ← List.countP_eq_length_filter]
  exact List.countP_mono_left h

lemma sum_indicator_eq_countP {α : Type} (l : List α) (p : α → Bool) :
    (l.map (fun x => if p x then (1 : ℚ) else 0)).sum = (l.countP p : ℚ) := by
  induction l with
  | nil => simp
  | cons a l ih =>
    by_cases h : p a = true
    · simp [h, ih, List.countP_cons, add_comm]
    · simp [h, ih, List.countP_cons]

lemma getD_set_self {α : Type} (l : List α) (i : ℕ) (v d : α) (h : i < l.length) :
    (l.set i v).getD i d = v := by
  rw [List.getD_eq_getElem?_getD, List.getElem?_set_self (by simpa using h)]
  rfl

lemma getD_set_ne {α : Type} (l : List α) (i j : ℕ) (v d : α) (h : i ≠ j) :
    (l.set i v).getD j d = l.getD j d := by
  rw [List.getD_eq_getElem?_getD, List.getElem?_set_ne h, List.getD_eq_getElem?_getD]

lemma getLastD_mem {α : Type} (l : List α) (d : α) (h : l ≠ []) : l.getLastD d ∈ l := by
  rw [List.getLastD_eq_getLast?]
  cases hl : l.getLast? with
  | none => exact absurd (List.getLast?_eq_none_iff.mp hl) h
  | some a => exact List.mem_of_getLast?_eq_some hl

lemma getD_replicate {α : Type} (n j : ℕ) (v d : α) (h : j < n) :
    (List.replicate n v).getD j d = v := by
  rw [List.getD_eq_getElem _ _ (by simpa using h)]
  exact List.getElem_replicate ..

/-! ### Characterization of `_get_bonded_hydrogens` -/

/-- The donors (in ascending index order) that claim hydrogen `h`. -/
def claimantsOf (G : Geometry) (s : AtomStack) (cutoff : ℚ) (dm : List Bool) (h : ℕ) :
    List ℕ :=
  (donorIndicesOf s dm).filter (fun d => claimsHyd G s cutoff d h)

lemma innerFold_spec (G : Geometry) (s : AtomStack) (cutoff : ℚ) (d : ℕ) (L : List ℕ)
    (st : List Bool × List Int) (h : ℕ) (hl1 : h < st.1.length) (hl2 : h < st.2.length) :
    (L.foldl (fun st i =>
        if claimsHyd G s cutoff d i then (st.1.set i true, st.2.set i (d : Int)) else st)
      st).1.length = st.1.length ∧
    (L.foldl (fun st i =>
        if claimsHyd G s cutoff d i then (st.1.set i true, st.2.set i (d : Int)) else st)
      st).2.length = st.2.length ∧
    (L.foldl (fun st i =>
        if claimsHyd G s cutoff d i then (st.1.set i true, st.2.set i (d : Int)) else st)
      st).1.getD h false =
      (if h ∈ L ∧ claimsHyd G s cutoff d h = true then true else st.1.getD h false) ∧
    (L.foldl (fun st i =>
        if claimsHyd G s cutoff d i then (st.1.set i true, st.2.set i (d : Int)) else st)
      st).2.getD h (-1) =
      (if h ∈ L ∧ claimsHyd G s cutoff d h = true then (d : Int) else st.2.getD h (-1)) := by
  induction L generalizing st with
  | nil => simp
  | cons i L ih =>
    rw [List.foldl_cons]
    set st' := if claimsHyd G s cutoff d i then (st.1.set i true, st.2.set i (d : Int)) else st
      with hst'
    have hlen1 : st'.1.length = st.1.length := by
      rw [hst']; split <;> simp
    have hlen2 : st'.2.length = st.2.length := by
      rw [hst']; split <;> simp
    obtain ⟨ih1, ih2, ih3, ih4⟩ :=
      ih st' (by rw [hlen1]; exact hl1) (by rw [hlen2]; exact hl2)
    refine ⟨by rw [ih1, hlen1], by rw [ih2, hlen2], ?_, ?_⟩
    · rw [ih3]
      by_cases hcl : claimsHyd G s cutoff d h = true
      · by_cases hmem : h ∈ L
        · rw [if_pos ⟨hmem, hcl⟩, if_pos ⟨List.mem_cons_of_mem i hmem, hcl⟩]
        · rw [if_neg (by tauto)]
          by_cases hih : h = i
          · subst hih
            rw [if_pos ⟨List.mem_cons_self .., hcl⟩, hst', if_pos hcl]
            exact getD_set_self st.1 h true false hl1
          · rw [if_neg (by
              rintro ⟨hm, -⟩
              rcases List.mem_cons.mp hm with rfl | hm
              · exact hih rfl
              · exact hmem hm)]
            rw [hst']
            split
            · exact getD_set_ne st.1 i h true false (fun hx => hih hx.symm)
            · rfl
      · rw [if_neg (by tauto), if_neg (by tauto), hst']
        by_cases hih : h = i
        · subst hih
          rw [if_neg (by simpa using hcl)]
        · split
          · exact getD_set_ne st.1 i h true false (fun hx => hih hx.symm)
          · rfl
    · rw [ih4]
      by_cases hcl : claimsHyd G s cutoff d h = true
      · by_cases hmem : h ∈ L
        · rw [if_pos ⟨hmem, hcl⟩, if_pos ⟨List.mem_cons_of_mem i hmem, hcl⟩]
        · rw [if_neg (by tauto)]
          by_cases hih : h = i
          · subst hih
            rw [if_pos ⟨List.mem_cons_self .., hcl⟩, hst', if_pos hcl]
            exact getD_set_self st.2 h (d : Int) (-1) hl2
          · rw [if_neg (by
              rintro ⟨hm, -⟩
              rcases List.mem_cons.mp hm with rfl | hm
              · exact hih rfl
              · exact hmem hm)]
            rw [hst']
            split
            · exact getD_set_ne st.2 i h (d : Int) (-1) (fun hx => hih hx.symm)
            · rfl
      · rw [if_neg (by tauto), if_neg (by tauto), hst']
        by_cases hih : h = i
        · subst hih
          rw [if_neg (by simpa using hcl)]
        · split
          · exact getD_set_ne st.2 i h (d : Int) (-1) (fun hx => hih hx.symm)
          · rfl

lemma hydStep_spec (G : Geometry) (s : AtomStack) (cutoff : ℚ) (d : ℕ)
    (st : List Bool × List Int) (h : ℕ)
    (hl1 : st.1.length = s.length) (hl2 : st.2.length = s.length) (hh : h < s.length) :
    (hydStep G s cutoff st d).1.length = s.length ∧
    (hydStep G s cutoff st d).2.length = s.length ∧
    (hydStep G s cutoff st d).1.getD h false =
      (if claimsHyd G s cutoff d h = true then true else st.1.getD h false) ∧
    (hydStep G s cutoff st d).2.getD h (-1) =
      (if claimsHyd G s cutoff d h = true then (d : Int) else st.2.getD h (-1)) := by
  obtain ⟨i1, i2, i3, i4⟩ := innerFold_spec G s cutoff d (List.range s.length) st h
    (by rw [hl1]; exact hh) (by rw [hl2]; exact hh)
  have hmem : h ∈ List.range s.length := List.mem_range.mpr hh
  refine ⟨by rw [hydStep, i1, hl1], by rw [hydStep, i2, hl2], ?_, ?_⟩
  · rw [hydStep, i3]
    by_cases hcl : claimsHyd G s cutoff d h = true
    · rw [if_pos ⟨hmem, hcl⟩, if_pos hcl]
    · rw [if_neg (by tauto), if_neg hcl]
  · rw [hydStep, i4]
    by_cases hcl : claimsHyd G s cutoff d h = true
    · rw [if_pos ⟨hmem, hcl⟩, if_pos hcl]
    · rw [if_neg (by tauto), if_neg hcl]

lemma donorFold_spec (G : Geometry) (s : AtomStack) (cutoff : ℚ) (D : List ℕ)
    (st : List Bool × List Int) (h : ℕ)
    (hl1 : st.1.length = s.length) (hl2 : st.2.length = s.length) (hh : h < s.length) :
    (D.foldl (hydStep G s cutoff) st).1.length = s.length ∧
    (D.foldl (hydStep G s cutoff) st).2.length = s.length ∧
    (D.foldl (hydStep G s cutoff) st).1.getD h false =
      (if (D.filter (fun d => claimsHyd G s cutoff d h)).isEmpty then st.1.getD h false
       else true) ∧
    (D.foldl (hydStep G s cutoff) st).2.getD h (-1) =
      ((D.filter (fun d => claimsHyd G s cutoff d h)).map Int.ofNat).getLastD
        (st.2.getD h (-1)) := by
  induction D using List.reverseRecOn with
  | nil => simp [hl1, hl2]
  | append_singleton D a ih =>
    obtain ⟨ih1, ih2, ih3, ih4⟩ := ih
    rw [List.foldl_append, List.foldl_cons, List.foldl_nil]
    obtain ⟨s1, s2, s3, s4⟩ :=
      hydStep_spec G s cutoff a (D.foldl (hydStep G s cutoff) st) h ih1 ih2 hh
    rw [List.filter_append]
    refine ⟨s1, s2, ?_, ?_⟩
    · rw [s3, ih3]
      by_cases hcl : claimsHyd G s cutoff a h = true
      · rw [if_pos hcl]
        have : (D.filter (fun d => claimsHyd G s cutoff d h) ++
            [a].filter (fun d => claimsHyd G s cutoff d h)).isEmpty = false := by
          simp [List.filter_singleton, hcl]
        rw [this]
        simp
      · rw [if_neg hcl]
        have : [a].filter (fun d => claimsHyd G s cutoff d h) = [] := by
          simp [List.filter_singleton, hcl]
        rw [this, List.append_nil]
    · rw [s4, ih4]
      by_cases hcl : claimsHyd G s cutoff a h = true
      · rw [if_pos hcl]
        have : [a].filter (fun d => claimsHyd G s cutoff d h) = [a] := by
          simp [List.filter_singleton, hcl]
        rw [this, List.map_append]
        simp [List.getLastD_concat]
      · rw [if_neg hcl]
        have : [a].filter (fun d => claimsHyd G s cutoff d h) = [] := by
          simp [List.filter_singleton, hcl]
        rw [this, List.append_nil]

/-- Full characterization of `_get_bonded_hydrogens`: the hydrogen
mask is set exactly at the hydrogens claimed by some donor, and the
association table holds the LAST claiming donor in ascending donor
order (`-1` when there is none). -/
lemma getBondedHydrogens_spec (G : Geometry) (s : AtomStack) (dm : List Bool) (cutoff : ℚ)
    (h : ℕ) (hh : h < s.length) :
    (getBondedHydrogens G s dm cutoff).1.length = s.length ∧
    (getBondedHydrogens G s dm cutoff).2.length = s.length ∧
    ((getBondedHydrogens G s dm cutoff).1.getD h false = true ↔
      claimantsOf G s cutoff dm h ≠ []) ∧
    (getBondedHydrogens G s dm cutoff).2.getD h (-1) =
      ((claimantsOf G s cutoff dm h).map Int.ofNat).getLastD (-1) := by
  obtain ⟨f1, f2, f3, f4⟩ := donorFold_spec G s cutoff (donorIndicesOf s dm)
    (List.replicate s.length false, List.replicate s.length (-1)) h
    (by simp) (by simp) hh
  rw [getBondedHydrogens]
  refine ⟨f1, f2, ?_, ?_⟩
  · rw [f3, getD_replicate s.length h false false hh]
    rw [show (donorIndicesOf s dm).filter (fun d => claimsHyd G s cutoff d h)
      = claimantsOf G s cutoff dm h from rfl]
    by_cases he : (claimantsOf G s cutoff dm h).isEmpty
    · rw [if_pos he]
      simp [List.isEmpty_iff.mp he]
    · rw [if_neg he]
      simp only [true_iff]
      exact fun hx => he (by simp [hx])
  · rw [f4, getD_replicate s.length h (-1) (-1) hh]
    rfl

/-- When the hydrogen mask is set, the association entry is a genuine
claiming donor index. -/
lemma assoc_claimant (G : Geometry) (s : AtomStack) (dm : List Bool) (cutoff : ℚ)
    (h : ℕ) (hh : h < s.length)
    (hm : (getBondedHydrogens G s dm cutoff).1.getD h false = true) :
    ∃ d : ℕ, (getBondedHydrogens G s dm cutoff).2.getD h (-1) = (d : Int) ∧
      claimsHyd G s cutoff d h = true := by
  obtain ⟨-, -, h3, h4⟩ := getBondedHydrogens_spec G s dm cutoff h hh
  have hne : claimantsOf G s cutoff dm h ≠ [] := h3.mp hm
  have hmem : ((claimantsOf G s cutoff dm h).map Int.ofNat).getLastD (-1) ∈
      (claimantsOf G s cutoff dm h).map Int.ofNat :=
    getLastD_mem _ _ (by simpa using hne)
  obtain ⟨d, hd, hde⟩ := List.mem_map.mp hmem
  refine ⟨d, by rw [h4, ← hde]; rfl, ?_⟩
  exact (List.mem_filter.mp hd).2

/-! ### Representation of detection results -/

lemma map_range_const {α : Type} (n : ℕ) (x : α) :
    (List.range n).map (fun _ => x) = List.replicate n x := by
  simp [List.eq_replicate_iff]

/-- `out` is a detection result represented by the column table
`counted`: the triplet list is the table's first components, the
(models × triplets) mask is the row-major rendering of the columns,
and every column is a narrow-phase column that is true somewhere, for
a triplet with a well-formed donor. -/
def ReprOf (G : Geometry) (s : AtomStack) (cd ca : ℚ)
    (out : List Triplet × List (List Bool)) (counted : List (Triplet × List Bool)) : Prop :=
  out.1 = counted.map (·.1) ∧
  out.2 = (List.range s.stackDepth).map (fun m => counted.map (fun c => c.2.getD m false)) ∧
  ∀ c ∈ counted, c.2 = tripletCol G s cd ca c.1 ∧ c.2.any id = true ∧
    0 ≤ c.1.1 ∧ c.1.1 ≠ (c.1.2.2 : Int) ∧ s.resIdAt c.1.1.toNat = s.resIdAt c.1.2.1

lemma mem_candidatePairs {G : Geometry} {s : AtomStack} {cd : ℚ} {aI dHI : List ℕ}
    {p : ℕ × ℕ} :
    p ∈ candidatePairs G s cd aI dHI ↔
      p.1 ∈ aI ∧ p.2 ∈ dHI ∧ broadHit G s cd p.1 p.2 = true := by
  obtain ⟨a, h⟩ := p
  constructor
  · intro hp
    obtain ⟨l, hl, hpl⟩ := List.mem_flatten.mp hp
    obtain ⟨a', ha', rfl⟩ := List.mem_map.mp hl
    obtain ⟨h', hh', hif⟩ := List.mem_filterMap.mp hpl
    by_cases hb : broadHit G s cd a' h' = true
    · rw [if_pos hb] at hif
      obtain ⟨rfl, rfl⟩ := Prod.ext_iff.mp (Option.some.inj hif)
      exact ⟨ha', hh', hb⟩
    · rw [if_neg hb] at hif
      exact absurd hif (by simp)
  · rintro ⟨ha, hh, hb⟩
    refine List.mem_flatten.mpr ⟨_, List.mem_map.mpr ⟨a, ha, rfl⟩, ?_⟩
    exact List.mem_filterMap.mpr ⟨h, hh, by rw [if_pos hb]⟩

/-- Membership facts for the pruned column table. -/
lemma mem_countedOf {G : Geometry} {s : AtomStack} {dm am : List Bool} {cd ca : ℚ}
    {c : Triplet × List Bool} (hc : c ∈ countedOf G s dm am cd ca) :
    c.2 = tripletCol G s cd ca c.1 ∧ c.2.any id = true ∧
      0 ≤ c.1.1 ∧ c.1.1 ≠ (c.1.2.2 : Int) ∧ s.resIdAt c.1.1.toNat = s.resIdAt c.1.2.1 := by
  rw [countedOf] at hc
  have hany := List.of_mem_filter hc
  have hc' := List.mem_of_mem_filter hc
  obtain ⟨t, ht, hce⟩ := List.mem_map.mp hc'
  have hne := List.of_mem_filter ht
  have ht' := List.mem_of_mem_filter ht
  obtain ⟨p, hp, hte⟩ := List.mem_map.mp ht'
  obtain ⟨-, hpd, -⟩ := mem_candidatePairs.mp hp
  rw [donorHIOf, List.mem_filter, List.mem_range] at hpd
  obtain ⟨hh, hmask⟩ := hpd
  obtain ⟨d, hd, hcl⟩ := assoc_claimant G s dm (mkRat 3 2) p.2 hh hmask
  simp only [claimsHyd, Bool.and_eq_true, beq_iff_eq, decide_eq_true_eq] at hcl
  subst hce
  subst hte
  refine ⟨rfl, hany, ?_, ?_, ?_⟩ <;> dsimp only
  · rw [hd]
    exact Int.ofNat_nonneg d
  · simpa using hne
  · rw [hd]
    simpa using hcl.1.2.symm

/-- The result of `_hbond`'s filtered body is represented by a column
table. -/
lemma core_repr (G : Geometry) (s : AtomStack) (dm am : List Bool) (cd ca : ℚ) :
    ∃ counted, ReprOf G s cd ca (coreFiltered G s dm am cd ca) counted := by
  rw [coreFiltered]
  split
  · exact ⟨[], by simp [ReprOf, map_range_const]⟩
  · exact ⟨countedOf G s dm am cd ca, rfl, rfl, fun c hc => mem_countedOf hc⟩

/-- An empty triplet list forces the all-empty mask. -/
lemma core_empty_mask (G : Geometry) (s : AtomStack) (dm am : List Bool) (cd ca : ℚ)
    (h : (coreFiltered G s dm am cd ca).1 = []) :
    (coreFiltered G s dm am cd ca).2 = List.replicate s.stackDepth [] := by
  obtain ⟨counted, h1, h2, -⟩ := core_repr G s dm am cd ca
  have : counted = [] := List.map_eq_nil_iff.mp (h1 ▸ h)
  rw [h2, this]
  simp only [List.map_nil]
  exact map_range_const s.stackDepth ([] : List Bool)

lemma map_range_eq_iff {α : Type} (n : ℕ) (f g : ℕ → α)
    (hfg : (List.range n).map f = (List.range n).map g) (m : ℕ) (hm : m < n) :
    f m = g m := by
  have := congrArg (fun l => l.getD m (f m)) hfg
  simpa [getD_map_range, hm] using this

/-- Concatenating represented results — triplet lists row-wise and
masks column-wise, as the `'both'` branch merge does — is represented
by the concatenation of the column tables. -/
lemma join_repr (G : Geometry) (s : AtomStack) (cd ca : ℚ)
    (rs : List (List Triplet × List (List Bool)))
    (H : ∀ r ∈ rs, ∃ c, ReprOf G s cd ca r c) :
    ∃ c, ReprOf G s cd ca
      ((rs.map (·.1)).flatten,
       (List.range s.stackDepth).map
         (fun m => (rs.map (fun r => r.2.getD m [])).flatten)) c := by
  induction rs with
  | nil => exact ⟨[], by simp [ReprOf]⟩
  | cons r rs ih =>
    obtain ⟨c0, hr1, hr2, hr3⟩ := H r (List.mem_cons_self ..)
    obtain ⟨c1, hs1, hs2, hs3⟩ := ih (fun x hx => H x (List.mem_cons_of_mem _ hx))
    dsimp only at hs1 hs2
    refine ⟨c0 ++ c1, ?_, ?_, ?_⟩
    · simp only [List.map_cons, List.flatten_cons, List.map_append]
      rw [hr1, hs1]
    · simp only [List.map_cons, List.flatten_cons, List.map_append]
      apply List.map_congr_left
      intro m hm
      rw [List.mem_range] at hm
      have hpt := map_range_eq_iff s.stackDepth _ _ hs2 m hm
      rw [hpt, hr2, getD_map_range]
      rw [if_pos hm]
    · intro c hc
      rcases List.mem_append.mp hc with hc | hc
      · exact hr3 c hc
      · exact hs3 c hc

/-- Every accumulated result of the `'both'` combination loop is an
output of `_hbond`'s filtered body. -/
lemma bothFold_results (G : Geometry) (s : AtomStack) (dem aem : List Bool) (cd ca : ℚ)
    (combos : List (ℕ × ℕ)) (st0 : List (List Bool) × List (List Triplet × List (List Bool)))
    (H : ∀ r ∈ st0.2, ∃ dm am, r = coreFiltered G s dm am cd ca) :
    ∀ r ∈ (combos.foldl (bothStep G s dem aem cd ca) st0).2,
      ∃ dm am, r = coreFiltered G s dm am cd ca := by
  induction combos generalizing st0 with
  | nil => exact H
  | cons combo combos ih =>
    rw [List.foldl_cons]
    apply ih
    rw [bothStep]
    split
    · split
      · intro r hr
        rcases List.mem_append.mp hr with hr | hr
        · exact H r hr
        · rw [List.mem_singleton.mp hr]
          exact ⟨_, _, rfl⟩
      · intro r hr
        rcases List.mem_append.mp hr with hr | hr
        · exact H r hr
        · rw [List.mem_singleton.mp hr]
          exact ⟨_, _, rfl⟩
    · exact H

/-- Every accumulated result of the `'both'` branch comes from
`_hbond`'s filtered body. -/
lemma bothResults_prov (G : Geometry) (s : AtomStack) (dem aem : List Bool) (cd ca : ℚ)
    (sel1 sel2 : List Bool) :
    ∀ r ∈ bothResultsOf G s dem aem cd ca sel1 sel2,
      ∃ dm am, r = coreFiltered G s dm am cd ca := by
  rw [bothResultsOf]
  exact bothFold_results G s dem aem cd ca selectionCombinations _ (by simp)

/-- Any `ok` result of `hbond` is represented by a column table. -/
lemma hbond_repr (G : Geometry) (s : AtomStack) (sel1 sel2 : List Bool) (ty : String)
    (cd ca : ℚ) (de ae : List String) (out : HbondOut)
    (h : hbond G s sel1 sel2 ty cd ca de ae = Except.ok out) :
    ∃ counted, ReprOf G s cd ca (out.triplets, out.mask) counted := by
  rw [hbond] at h
  by_cases h1 : ty = "both"
  · rw [if_pos h1] at h
    dsimp only at h
    split at h
    · exact absurd h (by simp)
    · have hout := Except.ok.inj h
      subst hout
      dsimp only
      apply join_repr
      intro r hr
      obtain ⟨dm, am, hre⟩ := bothResults_prov G s
        (s.elements.map (fun e => de.contains e)) (s.elements.map (fun e => ae.contains e))
        cd ca sel1 sel2 r hr
      rw [hre]
      exact core_repr G s dm am cd ca
  · rw [if_neg h1] at h
    by_cases h2 : ty = "donor"
    · rw [if_pos h2] at h
      have hout := Except.ok.inj h
      subst hout
      exact core_repr G s _ _ cd ca
    · rw [if_neg h2] at h
      by_cases h3 : ty = "acceptor"
      · rw [if_pos h3] at h
        have hout := Except.ok.inj h
        subst hout
        exact core_repr G s _ _ cd ca
      · rw [if_neg h3] at h
        exact absurd h (by simp)

lemma getD_mem {α : Type} (l : List α) (j : ℕ) (d : α) (h : j < l.length) :
    l.getD j d ∈ l := by
  rw [List.getD_eq_getElem l d h]
  exact List.getElem_mem h

lemma tripletCol_length (G : Geometry) (s : AtomStack) (cd ca : ℚ) (t : Triplet) :
    (tripletCol G s cd ca t).length = s.stackDepth := by
  rw [tripletCol, List.length_map, List.length_range]

/-! ### Concrete instances used in witnesses and counterexamples -/

/-- A concrete geometry oracle: unit distances, a wide 100-radian
angle everywhere, `pi = 3`, and an all-pass cell index (trivially a
superset index). -/
def Gt : Geometry := ⟨fun _ _ => 1, fun _ _ _ => 100, 3, fun _ _ _ => true⟩

/-- Three atoms, one model: donor O with its hydrogen in residue 1,
acceptor O in residue 2. -/
def s3 : AtomStack := ⟨["O", "H", "O"], [1, 1, 2], [[(0, 0, 0), (1, 0, 0), (2, 0, 0)]]⟩

/-- A single carbon atom (not a donor/acceptor element), one model. -/
def sC : AtomStack := ⟨["C"], [1], [[(0, 0, 0)]]⟩

/-- Two donors in one residue sharing a single hydrogen, one model. -/
def s2d : AtomStack := ⟨["O", "O", "H"], [1, 1, 1], [[(0, 0, 0), (1, 0, 0), (2, 0, 0)]]⟩

/-- The default donor/acceptor element set. -/
def elemsONS : List String := ["O", "N", "S"]

/-! ### Claim theorems -/

/-- C1: the detector marks a candidate triplet valid in a model iff
the Donor-H-Acceptor angle `theta` is strictly greater than
`cutoff_angle` converted from degrees to radians and the
hydrogen-acceptor distance is at most `cutoff_dist` (inclusive); the
per-model validity entry is exactly `_is_hbond` applied to that
model's coordinates of the triplet. -/
theorem narrow_phase_valid_iff (G : Geometry) (s : AtomStack) (cd ca : ℚ) (t : Triplet)
    (m : ℕ) (dc hc ac : Coord) :
    (m < s.stackDepth →
      (tripletCol G s cd ca t).getD m false =
        is_hbond G cd ca (s.coordAt m t.1.toNat) (s.coordAt m t.2.1) (s.coordAt m t.2.2)) ∧
    (is_hbond G cd ca dc hc ac = true ↔
      deg2rad G ca < G.ang dc hc ac ∧ G.dist hc ac ≤ cd) := by
  constructor
  · intro hm
    rw [tripletCol, getD_map_range, if_pos hm]
  · simp [is_hbond]

theorem narrow_phase_valid_iff_witness :
    (0 < s3.stackDepth) ∧
    ((tripletCol Gt s3 3 0 (0, 1, 2)).getD 0 false =
      is_hbond Gt 3 0 (s3.coordAt 0 (0 : Int).toNat) (s3.coordAt 0 1) (s3.coordAt 0 2)) ∧
    (is_hbond Gt 3 0 (0, 0, 0) (1, 0, 0) (2, 0, 0) = true ↔
      deg2rad Gt 0 < Gt.ang (0, 0, 0) (1, 0, 0) (2, 0, 0) ∧
        Gt.dist (1, 0, 0) (2, 0, 0) ≤ 3) :=
  ⟨by decide,
   (narrow_phase_valid_iff Gt s3 3 0 (0, 1, 2) 0 (0, 0, 0) (1, 0, 0) (2, 0, 0)).1
     (by decide),
   (narrow_phase_valid_iff Gt s3 3 0 (0, 1, 2) 0 (0, 0, 0) (1, 0, 0) (2, 0, 0)).2⟩

/-- C2 (amended): the `'both'` enumeration is the 3×3 grid over
{exclusive-1, exclusive-2, overlap} minus the two exclusive
self-pairings — exactly 7 directed pairings, not 8 — and the `'both'`
branch of the detector folds over exactly this enumeration. -/
theorem both_pairings_enumeration :
    selectionCombinations =
      (((List.range 3).map (fun i => (List.range 3).map (fun j => (i, j)))).flatten.filter
        (fun p => p != (0, 0) && p != (1, 1))) ∧
    selectionCombinations.length = 7 ∧
    (∀ (G : Geometry) (s : AtomStack) (sel1 sel2 : List Bool) (cd ca : ℚ)
        (de ae : List String),
      hbond G s sel1 sel2 "both" cd ca de ae =
        (let dem := s.elements.map (fun e => de.contains e)
         let aem := s.elements.map (fun e => ae.contains e)
         let overlap := List.zipWith (· && ·) sel1 sel2
         let excl1 := List.zipWith (fun a b => a && !b) sel1 overlap
         let excl2 := List.zipWith (fun a b => a && !b) sel2 overlap
         let res := selectionCombinations.foldl (bothStep G s dem aem cd ca)
           ([excl1, excl2, overlap], [])
         if res.2.isEmpty then Except.error "need at least one array to concatenate"
         else Except.ok
           { triplets := (res.2.map (·.1)).flatten
             mask := (List.range s.stackDepth).map
               (fun m => (res.2.map (fun r => r.2.getD m [])).flatten)
             fsel1 := sel1
             fsel2 := sel2 })) :=
  ⟨by decide, by decide, fun G s sel1 sel2 cd ca de ae => by
    rw [hbond]
    dsimp only
    rw [if_pos rfl, bothResultsOf]⟩

/-- C2 (counterexample): the enumeration does not have 8 members. -/
theorem both_pairings_enumeration_cex : selectionCombinations.length ≠ 8 := by
  decide

/-- C9: a `'donor'` call on (S1, S2) produces exactly the same
triplets and mask as an `'acceptor'` call on (S2, S1). -/
theorem donor_acceptor_symmetry (G : Geometry) (s : AtomStack) (sel1 sel2 : List Bool)
    (cd ca : ℚ) (de ae : List String) :
    (hbond G s sel1 sel2 "donor" cd ca de ae).map (fun o => (o.triplets, o.mask)) =
      (hbond G s sel2 sel1 "acceptor" cd ca de ae).map (fun o => (o.triplets, o.mask)) :=
  rfl

/-- C4 (code bug): the detection call mutates the caller-supplied
selection vectors — `donor_mask &= donor_element_mask` runs in place
on `selection1`.  A caller passing `selection1 = [True]` for a single
carbon atom observes `selection1 = [False]` after the call. -/
theorem selections_mutated :
    hbond Gt sC [true] [true] "donor" (mkRat 5 2) 120 elemsONS elemsONS =
      Except.ok ⟨[], [[]], [false], [false]⟩ ∧ ([false] : List Bool) ≠ [true] :=
  ⟨by with_unfolding_all rfl, by decide⟩

/-- C5 (counterexample): a frequency call on a mask with zero models
does not fail with an error — the division is performed anyway (numpy
emits NaN columns; in the rational embedding `0 / 0 = 0`). -/
theorem frequency_zero_models_no_error :
    hbond_frequency 2 ([] : List (List Bool)) = [0, 0] := by
  with_unfolding_all rfl

/-- C5 (amended): the frequency call never raises; with zero models
it silently performs the division (NaN in floating point, `0` in this
rational embedding), and for M ≥ 1 models each column's value is
exactly (true count)/M, a value in [0, 1]. -/
theorem frequency_spec (nCols : ℕ) (mask : List (List Bool)) (j : ℕ)
    (hM : 1 ≤ mask.length) (hj : j < nCols) :
    (hbond_frequency nCols mask).getD j 0 =
      (mask.countP (fun row => row.getD j false) : ℚ) / (mask.length : ℚ) ∧
    0 ≤ (hbond_frequency nCols mask).getD j 0 ∧
    (hbond_frequency nCols mask).getD j 0 ≤ 1 := by
  have hlen : (0 : ℚ) < (mask.length : ℚ) := by exact_mod_cast hM
  have he : (hbond_frequency nCols mask).getD j 0 =
      (mask.countP (fun row => row.getD j false) : ℚ) / (mask.length : ℚ) := by
    rw [hbond_frequency, getD_map_range, if_pos hj, sum_indicator_eq_countP]
  refine ⟨he, ?_, ?_⟩
  · rw [he]
    positivity
  · rw [he, div_le_one hlen]
    exact_mod_cast List.countP_le_length _

theorem frequency_spec_witness :
    1 ≤ ([[true], [false]] : List (List Bool)).length ∧
    ((hbond_frequency 1 [[true], [false]]).getD 0 0 =
      (([[true], [false]] : List (List Bool)).countP (fun row => row.getD 0 false) : ℚ) /
        (([[true], [false]] : List (List Bool)).length : ℚ) ∧
    0 ≤ (hbond_frequency 1 [[true], [false]]).getD 0 0 ∧
    (hbond_frequency 1 [[true], [false]]).getD 0 0 ≤ 1) :=
  ⟨by decide, frequency_spec 1 [[true], [false]] 0 (by decide) (by decide)⟩

/-- C6: every triplet returned by a detection call has a genuine
(non-negative) donor index, donor ≠ acceptor, and a hydrogen in the
donor's residue. -/
theorem triplet_invariants (G : Geometry) (s : AtomStack) (sel1 sel2 : List Bool)
    (ty : String) (cd ca : ℚ) (de ae : List String) (out : HbondOut) (t : Triplet)
    (h : hbond G s sel1 sel2 ty cd ca de ae = Except.ok out)
    (ht : t ∈ out.triplets) :
    0 ≤ t.1 ∧ t.1 ≠ (t.2.2 : Int) ∧ s.resIdAt t.1.toNat = s.resIdAt t.2.1 := by
  obtain ⟨counted, h1, h2, h3⟩ := hbond_repr G s sel1 sel2 ty cd ca de ae out h
  dsimp only at h1
  rw [h1] at ht
  obtain ⟨c, hc, hce⟩ := List.mem_map.mp ht
  obtain ⟨-, -, p1, p2, p3⟩ := h3 c hc
  exact ⟨hce ▸ p1, hce ▸ p2, hce ▸ p3⟩

theorem triplet_invariants_witness :
    (hbond Gt s3 [true, true, true] [true, true, true] "donor" (mkRat 5 2) 120
        elemsONS elemsONS =
      Except.ok ⟨[(0, 1, 2)], [[true]], [true, false, true], [true, false, true]⟩) ∧
    ((0, 1, 2) : Triplet) ∈
      (HbondOut.mk [(0, 1, 2)] [[true]] [true, false, true] [true, false, true]).triplets ∧
    (0 ≤ ((0, 1, 2) : Triplet).1 ∧ ((0, 1, 2) : Triplet).1 ≠ (((0, 1, 2) : Triplet).2.2 : Int) ∧
      s3.resIdAt ((0, 1, 2) : Triplet).1.toNat = s3.resIdAt ((0, 1, 2) : Triplet).2.1) :=
  ⟨by with_unfolding_all rfl, by decide,
   triplet_invariants Gt s3 [true, true, true] [true, true, true] "donor" (mkRat 5 2) 120
     elemsONS elemsONS ⟨[(0, 1, 2)], [[true]], [true, false, true], [true, false, true]⟩
     (0, 1, 2) (by with_unfolding_all rfl) (by decide)⟩

/-- C7: the returned mask is well-formed — one row per model, one
entry per returned triplet — and every column is the narrow-phase
column of the corresponding triplet and contains at least one `True`
entry (all-false columns are pruned together with their triplets). -/
theorem mask_columns_some_true (G : Geometry) (s : AtomStack) (sel1 sel2 : List Bool)
    (ty : String) (cd ca : ℚ) (de ae : List String) (out : HbondOut)
    (h : hbond G s sel1 sel2 ty cd ca de ae = Except.ok out) :
    out.mask.length = s.stackDepth ∧
    (∀ row ∈ out.mask, row.length = out.triplets.length) ∧
    (∀ j, j < out.triplets.length →
      out.mask.map (fun row => row.getD j false) =
        tripletCol G s cd ca (out.triplets.getD j (0, 0, 0)) ∧
      (out.mask.map (fun row => row.getD j false)).any id = true) := by
  obtain ⟨counted, h1, h2, h3⟩ := hbond_repr G s sel1 sel2 ty cd ca de ae out h
  dsimp only at h1 h2
  have hclen : out.triplets.length = counted.length := by
    rw [h1, List.length_map]
  refine ⟨by rw [h2, List.length_map, List.length_range], ?_, ?_⟩
  · intro row hrow
    rw [h2] at hrow
    obtain ⟨m, -, hrr⟩ := List.mem_map.mp hrow
    rw [← hrr, List.length_map, hclen]
  · intro j hj
    rw [hclen] at hj
    set c := counted.getD j ((0, 0, 0), []) with hcdef
    have hcmem : c ∈ counted := getD_mem counted j ((0, 0, 0), []) hj
    obtain ⟨q1, q2, -, -, -⟩ := h3 c hcmem
    have hcol : out.mask.map (fun row => row.getD j false) =
        (List.range s.stackDepth).map (fun m => c.2.getD m false) := by
      rw [h2, List.map_map]
      apply List.map_congr_left
      intro m hm
      simp only [Function.comp_apply]
      exact getD_map_of_lt counted (fun c => c.2.getD m false) j false ((0, 0, 0), []) hj
    have hcl : c.2.length = s.stackDepth := by
      rw [q1, tripletCol_length]
    have hcol2 : out.mask.map (fun row => row.getD j false) = c.2 := by
      rw [hcol, ← hcl]
      exact map_range_getD c.2 false
    constructor
    · rw [hcol2, q1]
      congr 1
      rw [h1]
      exact (getD_map_of_lt counted (·.1) j (0, 0, 0) ((0, 0, 0), []) hj).symm
    · rw [hcol2]
      exact q2

theorem mask_columns_some_true_witness :
    (hbond Gt s3 [true, true, true] [true, true, true] "acceptor" (mkRat 5 2) 120
        elemsONS elemsONS =
      Except.ok ⟨[(0, 1, 2)], [[true]], [true, false, true], [true, false, true]⟩) ∧
    (0 < (HbondOut.mk [(0, 1, 2)] [[true]] [true, false, true] [true, false, true]).triplets.length ∧
     ((HbondOut.mk [(0, 1, 2)] [[true]] [true, false, true] [true, false, true]).mask.map
       (fun row => row.getD 0 false)).any id = true) :=
  ⟨by with_unfolding_all rfl,
   by decide,
   ((mask_columns_some_true Gt s3 [true, true, true] [true, true, true] "acceptor"
       (mkRat 5 2) 120 elemsONS elemsONS
       ⟨[(0, 1, 2)], [[true]], [true, false, true], [true, false, true]⟩
       (by with_unfolding_all rfl)).2.2 0 (by decide)).2⟩

/-- C3 (counterexample): with `'both'` and two all-false selections
every pairing is skipped, and merging zero per-pairing results raises
(`np.concatenate` of an empty list) instead of returning a well-formed
empty result. -/
theorem empty_both_raises :
    hbond Gt s3 [false, false, false] [false, false, false] "both" (mkRat 5 2) 120
      elemsONS elemsONS = Except.error "need at least one array to concatenate" := by
  with_unfolding_all rfl

/-- C3 (amended): a `'donor'` or `'acceptor'` call with zero
donor-hydrogens or zero acceptors after element filtering returns the
well-formed empty result — no triplets and a (num_models × 0) mask —
without raising; a `'both'` call returns `ok` whenever at least one
pairing was evaluated, and when every evaluated pairing is empty the
merged result is the same well-formed empty result.  (When every
pairing is skipped, `'both'` raises — see the counterexample.) -/
theorem empty_result_spec (G : Geometry) (s : AtomStack) (sel1 sel2 : List Bool)
    (cd ca : ℚ) (de ae : List String) :
    (∀ dm am,
      dm = List.zipWith (· && ·) sel1 (s.elements.map (fun e => de.contains e)) →
      am = List.zipWith (· && ·) sel2 (s.elements.map (fun e => ae.contains e)) →
      ((donorHIOf G s dm).isEmpty || (acceptorIOf s am).isEmpty) = true →
      hbond G s sel1 sel2 "donor" cd ca de ae =
        Except.ok ⟨[], List.replicate s.stackDepth [], dm, am⟩) ∧
    (∀ dm am,
      dm = List.zipWith (· && ·) sel2 (s.elements.map (fun e => de.contains e)) →
      am = List.zipWith (· && ·) sel1 (s.elements.map (fun e => ae.contains e)) →
      ((donorHIOf G s dm).isEmpty || (acceptorIOf s am).isEmpty) = true →
      hbond G s sel1 sel2 "acceptor" cd ca de ae =
        Except.ok ⟨[], List.replicate s.stackDepth [], am, dm⟩) ∧
    (∀ res,
      res = bothResultsOf G s (s.elements.map (fun e => de.contains e))
        (s.elements.map (fun e => ae.contains e)) cd ca sel1 sel2 →
      res ≠ [] →
      (∀ r ∈ res, r.1 = []) →
      hbond G s sel1 sel2 "both" cd ca de ae =
        Except.ok ⟨[], List.replicate s.stackDepth [], sel1, sel2⟩) := by
  refine ⟨?_, ?_, ?_⟩
  · intro dm am hdm ham hemp
    subst hdm
    subst ham
    rw [hbond]
    dsimp only
    rw [if_neg (by decide), if_pos rfl, hbondCore]
    dsimp only
    rw [coreFiltered, if_pos hemp]
  · intro dm am hdm ham hemp
    subst hdm
    subst ham
    rw [hbond]
    dsimp only
    rw [if_neg (by decide), if_neg (by decide), if_pos rfl, hbondCore]
    dsimp only
    rw [coreFiltered, if_pos hemp]
  · intro res hres hne hall
    have hflat : (res.map (·.1)).flatten = [] := by
      rw [List.flatten_eq_nil_iff]
      intro l hl
      obtain ⟨r, hr, hrl⟩ := List.mem_map.mp hl
      rw [← hrl]
      exact hall r hr
    have hrows : ∀ m, m < s.stackDepth →
        (res.map (fun r => r.2.getD m [])).flatten = [] := by
      intro m hm
      rw [List.flatten_eq_nil_iff]
      intro l hl
      obtain ⟨r, hr, hrl⟩ := List.mem_map.mp hl
      obtain ⟨dm', am', hre⟩ := bothResults_prov G s
        (s.elements.map (fun e => de.contains e)) (s.elements.map (fun e => ae.contains e))
        cd ca sel1 sel2 r (hres ▸ hr)
      have h2 : r.2 = List.replicate s.stackDepth [] := by
        rw [hre]
        exact core_empty_mask G s dm' am' cd ca (hre ▸ hall r hr)
      rw [← hrl, h2, getD_replicate _ _ _ _ hm]
    have hmask : (List.range s.stackDepth).map
        (fun m => (res.map (fun r => r.2.getD m [])).flatten) =
        List.replicate s.stackDepth [] := by
      rw [← map_range_const s.stackDepth ([] : List Bool)]
      apply List.map_congr_left
      intro m hm
      exact hrows m (List.mem_range.mp hm)
    rw [hbond]
    dsimp only
    rw [if_pos rfl, ← hres, if_neg (by simp [hne]), hflat, hmask]

theorem empty_result_spec_witness :
    hbond Gt s3 [true, true, true] [false, false, false] "donor" (mkRat 5 2) 120
        elemsONS elemsONS =
      Except.ok ⟨[], [[]], [true, false, true], [false, false, false]⟩ :=
  (empty_result_spec Gt s3 [true, true, true] [false, false, false] (mkRat 5 2) 120
      elemsONS elemsONS).1 [true, false, true] [false, false, false]
    (by with_unfolding_all rfl) (by with_unfolding_all rfl) (by with_unfolding_all rfl)

/-- C8: the donor→hydrogen association: the hydrogen mask is set
exactly when some donor claims the atom; a donor claims atom `h` iff
`h` is a hydrogen in the donor's residue within the bonding cutoff of
the donor in model 0; the association entry is the LAST claiming donor
in ascending donor order, so each hydrogen has at most one donor; and
the whole resolution depends only on model-0 coordinates (plus the
per-atom identity attributes). -/
theorem donor_hydrogen_resolution (G : Geometry) (s s' : AtomStack) (dm : List Bool)
    (cutoff : ℚ) (h d : ℕ) (hh : h < s.length) :
    ((getBondedHydrogens G s dm cutoff).1.getD h false = true ↔
      claimantsOf G s cutoff dm h ≠ []) ∧
    ((getBondedHydrogens G s dm cutoff).2.getD h (-1) =
      ((claimantsOf G s cutoff dm h).map Int.ofNat).getLastD (-1)) ∧
    (d ∈ claimantsOf G s cutoff dm h ↔
      d < s.length ∧ dm.getD d false = true ∧ s.elementAt h = "H" ∧
        s.resIdAt h = s.resIdAt d ∧ G.dist (s.coordAt 0 d) (s.coordAt 0 h) ≤ cutoff) ∧
    (s.elements = s'.elements → s.resIds = s'.resIds →
      s.coords.getD 0 [] = s'.coords.getD 0 [] →
      getBondedHydrogens G s dm cutoff = getBondedHydrogens G s' dm cutoff) := by
  obtain ⟨-, -, h3, h4⟩ := getBondedHydrogens_spec G s dm cutoff h hh
  refine ⟨h3, h4, ?_, ?_⟩
  · simp only [claimantsOf, donorIndicesOf, List.mem_filter, List.mem_range, claimsHyd,
      Bool.and_eq_true, beq_iff_eq, decide_eq_true_eq, List.getD_eq_getElem?_getD]
    tauto
  · intro he hr hc
    have hlen : s.length = s'.length := by
      rw [AtomStack.length, AtomStack.length, he]
    have he1 : ∀ i, s.elementAt i = s'.elementAt i := fun i => by
      rw [AtomStack.elementAt, AtomStack.elementAt, he]
    have he2 : ∀ i, s.resIdAt i = s'.resIdAt i := fun i => by
      rw [AtomStack.resIdAt, AtomStack.resIdAt, hr]
    have he3 : ∀ i, s.coordAt 0 i = s'.coordAt 0 i := fun i => by
      rw [AtomStack.coordAt, AtomStack.coordAt, hc]
    have hclaims : ∀ d' i, claimsHyd G s cutoff d' i = claimsHyd G s' cutoff d' i := by
      intro d' i
      rw [claimsHyd, claimsHyd, he1, he2, he2, he3, he3]
    have hstep : hydStep G s cutoff = hydStep G s' cutoff := by
      funext st d'
      rw [hydStep, hydStep, hlen]
      congr 1
      funext st' i
      rw [hclaims]
    rw [getBondedHydrogens, getBondedHydrogens, donorIndicesOf, donorIndicesOf,
      hlen, hstep]

theorem donor_hydrogen_resolution_witness :
    (2 < s2d.length) ∧
    ((getBondedHydrogens Gt s2d [true, true, false] (mkRat 3 2)).2.getD 2 (-1) =
      ((claimantsOf Gt s2d (mkRat 3 2) [true, true, false] 2).map Int.ofNat).getLastD (-1)) ∧
    ((claimantsOf Gt s2d (mkRat 3 2) [true, true, false] 2).map Int.ofNat).getLastD (-1)
      = 1 ∧
    claimantsOf Gt s2d (mkRat 3 2) [true, true, false] 2 = [0, 1] :=
  ⟨by decide,
   (donor_hydrogen_resolution Gt s2d s2d [true, true, false] (mkRat 3 2) 2 0
     (by decide)).2.1,
   by with_unfolding_all rfl, by with_unfolding_all rfl⟩

/-! ### Monotonicity in the cutoffs -/

/-- The full (acceptor, donor-hydrogen) cross product in row-major
order; the broad phase keeps a sublist of it. -/
def allPairsOf (aI dHI : List ℕ) : List (ℕ × ℕ) :=
  (aI.map (fun a => dHI.map (fun h => (a, h)))).flatten

/-- The exact survival test of a candidate pair: its triplet passes
the donor≠acceptor filter and the narrow phase in at least one
model. -/
def exactSurvives (G : Geometry) (s : AtomStack) (dm : List Bool) (cd ca : ℚ)
    (p : ℕ × ℕ) : Bool :=
  ((getBondedHydrogens G s dm (mkRat 3 2)).2.getD p.2 (-1) != (p.1 : Int)) &&
    (tripletCol G s cd ca
      ((getBondedHydrogens G s dm (mkRat 3 2)).2.getD p.2 (-1), p.2, p.1)).any id

lemma filterMap_if_eq_filter_map (G : Geometry) (s : AtomStack) (cd : ℚ) (a : ℕ)
    (dHI : List ℕ) :
    dHI.filterMap (fun h => if broadHit G s cd a h then some (a, h) else none) =
      (dHI.map (fun h => (a, h))).filter (fun p => broadHit G s cd p.1 p.2) := by
  induction dHI with
  | nil => rfl
  | cons h t ih =>
    cases hb : broadHit G s cd a h <;>
      simp [List.filterMap_cons, List.filter_cons, hb, ih]

lemma candidatePairs_eq_filter (G : Geometry) (s : AtomStack) (cd : ℚ) (aI dHI : List ℕ) :
    candidatePairs G s cd aI dHI =
      (allPairsOf aI dHI).filter (fun p => broadHit G s cd p.1 p.2) := by
  rw [candidatePairs, allPairsOf, List.filter_flatten, List.map_map]
  congr 1
  apply List.map_congr_left
  intro a _
  exact filterMap_if_eq_filter_map G s cd a dHI

/-- Under the spatial-index soundness contract, a pair that survives
the exact test is seen by the broad phase. -/
lemma exact_implies_broad (G : Geometry) (s : AtomStack) (dm : List Bool) (cd ca : ℚ)
    (hB : BroadSound G) (p : ℕ × ℕ)
    (h : (tripletCol G s cd ca
        ((getBondedHydrogens G s dm (mkRat 3 2)).2.getD p.2 (-1), p.2, p.1)).any id = true) :
    broadHit G s cd p.1 p.2 = true := by
  rw [tripletCol, List.any_eq_true] at h
  obtain ⟨x, hx, hid⟩ := h
  obtain ⟨m, hm, rfl⟩ := List.mem_map.mp hx
  simp only [id_eq, is_hbond, Bool.and_eq_true, decide_eq_true_eq] at hid
  rw [broadHit, List.any_eq_true]
  exact ⟨m, hm, hB cd (s.coordAt m p.1) (s.coordAt m p.2) hid.2⟩

/-- Under the soundness contract, the pruned table's size is the count
of exact survivors in the cutoff-independent cross product. -/
lemma countedOf_length_eq (G : Geometry) (s : AtomStack) (dm am : List Bool) (cd ca : ℚ)
    (hB : BroadSound G) :
    (countedOf G s dm am cd ca).length =
      (allPairsOf (acceptorIOf s am) (donorHIOf G s dm)).countP
        (exactSurvives G s dm cd ca) := by
  rw [countedOf]
  rw [← List.countP_eq_length_filter, List.countP_map, List.countP_filter,
    List.countP_map, candidatePairs_eq_filter, List.countP_filter]
  apply List.countP_congr
  intro p _
  simp only [Function.comp_apply, Bool.and_eq_true, exactSurvives]
  constructor
  · rintro ⟨⟨hany, hne⟩, -⟩
    exact ⟨hne, hany⟩
  · rintro ⟨hne, hany⟩
    exact ⟨⟨hany, hne⟩, exact_implies_broad G s dm cd ca hB p hany⟩

lemma core_triplets_len (G : Geometry) (s : AtomStack) (dm am : List Bool) (cd ca : ℚ)
    (hB : BroadSound G) :
    (coreFiltered G s dm am cd ca).1.length =
      if ((donorHIOf G s dm).isEmpty || (acceptorIOf s am).isEmpty) = true then 0
      else (allPairsOf (acceptorIOf s am) (donorHIOf G s dm)).countP
        (exactSurvives G s dm cd ca) := by
  rw [coreFiltered]
  split
  · rfl
  · dsimp only
    rw [List.length_map]
    exact countedOf_length_eq G s dm am cd ca hB

/-- Raising the angle cutoff or lowering the distance cutoff makes the
narrow phase strictly harder to pass (given a non-negative circle
constant). -/
lemma is_hbond_mono (G : Geometry) (cd ca cd' ca' : ℚ) (dc hc ac : Coord)
    (hpi : 0 ≤ G.pi) (hcd : cd' ≤ cd) (hca : ca ≤ ca')
    (h : is_hbond G cd' ca' dc hc ac = true) : is_hbond G cd ca dc hc ac = true := by
  simp only [is_hbond, Bool.and_eq_true, decide_eq_true_eq] at h ⊢
  refine ⟨lt_of_le_of_lt ?_ h.1, le_trans h.2 hcd⟩
  rw [deg2rad, deg2rad]
  exact (div_le_div_iff_of_pos_right (by norm_num)).mpr
    (mul_le_mul_of_nonneg_right hca hpi)

lemma exactSurvives_mono (G : Geometry) (s : AtomStack) (dm : List Bool)
    (cd ca cd' ca' : ℚ) (hpi : 0 ≤ G.pi) (hcd : cd' ≤ cd) (hca : ca ≤ ca') (p : ℕ × ℕ)
    (h : exactSurvives G s dm cd' ca' p = true) : exactSurvives G s dm cd ca p = true := by
  rw [exactSurvives, Bool.and_eq_true] at h ⊢
  refine ⟨h.1, ?_⟩
  have h2 := h.2
  rw [tripletCol, List.any_eq_true] at h2
  obtain ⟨x, hx, hid⟩ := h2
  obtain ⟨m, hm, rfl⟩ := List.mem_map.mp hx
  rw [tripletCol, List.any_eq_true]
  refine ⟨_, List.mem_map.mpr ⟨m, hm, rfl⟩, ?_⟩
  simp only [id_eq] at hid ⊢
  exact is_hbond_mono G cd ca cd' ca' _ _ _ hpi hcd hca hid

lemma core_mono (G : Geometry) (s : AtomStack) (dm am : List Bool) (cd ca cd' ca' : ℚ)
    (hB : BroadSound G) (hpi : 0 ≤ G.pi) (hcd : cd' ≤ cd) (hca : ca ≤ ca') :
    (coreFiltered G s dm am cd' ca').1.length ≤ (coreFiltered G s dm am cd ca).1.length := by
  rw [core_triplets_len G s dm am cd' ca' hB, core_triplets_len G s dm am cd ca hB]
  split
  · exact Nat.le_refl 0
  · exact List.countP_mono_left
      (fun p _ hp => exactSurvives_mono G s dm cd ca cd' ca' hpi hcd hca p hp)

lemma forall₂_concat {α β : Type} {R : α → β → Prop} {l : List α} {l' : List β}
    {a : α} {b : β} (h : List.Forall₂ R l l') (hab : R a b) :
    List.Forall₂ R (l ++ [a]) (l' ++ [b]) := by
  induction h with
  | nil => exact List.Forall₂.cons hab List.Forall₂.nil
  | cons h₁ _ ih => exact List.Forall₂.cons h₁ ih

lemma forall₂_len_sum {l' l : List (List Triplet × List (List Bool))}
    (h : List.Forall₂ (fun r' r => r'.1.length ≤ r.1.length) l' l) :
    ((l'.map (·.1)).flatten).length ≤ ((l.map (·.1)).flatten).length := by
  induction h with
  | nil => exact Nat.le_refl 0
  | cons h₁ _ ih =>
    simp only [List.map_cons, List.flatten_cons, List.length_append]
    exact Nat.add_le_add h₁ ih

/-- In the `'both'` loop, the selection-array state evolves
identically for the two cutoff pairs, and the accumulated per-pairing
results are pointwise no larger for the tighter cutoffs. -/
lemma bothFold_mono (G : Geometry) (s : AtomStack) (dem aem : List Bool)
    (cd ca cd' ca' : ℚ) (hB : BroadSound G) (hpi : 0 ≤ G.pi) (hcd : cd' ≤ cd)
    (hca : ca ≤ ca') (combos : List (ℕ × ℕ)) :
    ∀ (sels : List (List Bool)) (acc acc' : List (List Triplet × List (List Bool))),
      List.Forall₂ (fun r' r => r'.1.length ≤ r.1.length) acc' acc →
      (combos.foldl (bothStep G s dem aem cd' ca') (sels, acc')).1 =
        (combos.foldl (bothStep G s dem aem cd ca) (sels, acc)).1 ∧
      List.Forall₂ (fun r' r => r'.1.length ≤ r.1.length)
        (combos.foldl (bothStep G s dem aem cd' ca') (sels, acc')).2
        (combos.foldl (bothStep G s dem aem cd ca) (sels, acc)).2 := by
  induction combos with
  | nil => exact fun sels acc acc' hacc => ⟨rfl, hacc⟩
  | cons combo combos ih =>
    intro sels acc acc' hacc
    rw [List.foldl_cons, List.foldl_cons, bothStep, bothStep]
    dsimp only
    by_cases hc : ((sels.getD combo.1 []).any id && (sels.getD combo.2 []).any id) = true
    · rw [if_pos hc, if_pos hc]
      by_cases he : (combo.1 == combo.2) = true
      · rw [if_pos he, if_pos he]
        dsimp only [hbondCoreAliased]
        exact ih _ _ _
          (forall₂_concat hacc (core_mono G s _ _ cd ca cd' ca' hB hpi hcd hca))
      · rw [if_neg he, if_neg he]
        dsimp only [hbondCore]
        exact ih _ _ _
          (forall₂_concat hacc (core_mono G s _ _ cd ca cd' ca' hB hpi hcd hca))
    · rw [if_neg hc, if_neg hc]
      exact ih _ _ _ hacc

/-- The triplet list of an `ok` result of a `'both'` call is the
concatenation of the per-pairing triplet lists. -/
lemma hbond_both_triplets (G : Geometry) (s : AtomStack) (sel1 sel2 : List Bool)
    (cd ca : ℚ) (de ae : List String) (out : HbondOut)
    (h : hbond G s sel1 sel2 "both" cd ca de ae = Except.ok out) :
    out.triplets = ((bothResultsOf G s (s.elements.map (fun e => de.contains e))
      (s.elements.map (fun e => ae.contains e)) cd ca sel1 sel2).map (·.1)).flatten := by
  rw [hbond] at h
  dsimp only at h
  rw [if_pos rfl] at h
  split at h
  · exact Except.noConfusion h
  · rw [← Except.ok.inj h]

lemma bothResults_mono (G : Geometry) (s : AtomStack) (dem aem : List Bool)
    (cd ca cd' ca' : ℚ) (sel1 sel2 : List Bool) (hB : BroadSound G) (hpi : 0 ≤ G.pi)
    (hcd : cd' ≤ cd) (hca : ca ≤ ca') :
    List.Forall₂ (fun r' r => r'.1.length ≤ r.1.length)
      (bothResultsOf G s dem aem cd' ca' sel1 sel2)
      (bothResultsOf G s dem aem cd ca sel1 sel2) := by
  rw [bothResultsOf, bothResultsOf]
  exact (bothFold_mono G s dem aem cd ca cd' ca' hB hpi hcd hca selectionCombinations
    _ [] [] List.Forall₂.nil).2

set_option maxHeartbeats 1600000 in
/-- C10: under the spatial index's superset contract and a
non-negative circle constant, raising `cutoff_angle` or lowering
`cutoff_dist` never increases the number of returned triplets, for
every `selection1_type`. -/
theorem cutoff_monotonicity (G : Geometry) (s : AtomStack) (sel1 sel2 : List Bool)
    (ty : String) (cd ca cd' ca' : ℚ) (de ae : List String) (o o' : HbondOut)
    (hB : BroadSound G) (hpi : 0 ≤ G.pi) (hcd : cd' ≤ cd) (hca : ca ≤ ca')
    (h' : hbond G s sel1 sel2 ty cd' ca' de ae = Except.ok o')
    (h : hbond G s sel1 sel2 ty cd ca de ae = Except.ok o) :
    o'.triplets.length ≤ o.triplets.length := by
  rw [hbond] at h h'
  by_cases h1 : ty = "both"
  · subst h1
    rw [hbond_both_triplets G s sel1 sel2 cd ca de ae o h,
      hbond_both_triplets G s sel1 sel2 cd' ca' de ae o' h']
    exact forall₂_len_sum (bothResults_mono G s
      (s.elements.map (fun e => de.contains e)) (s.elements.map (fun e => ae.contains e))
      cd ca cd' ca' sel1 sel2 hB hpi hcd hca)
  · rw [if_neg h1] at h h'
    by_cases h2 : ty = "donor"
    · rw [if_pos h2] at h h'
      have ho := Except.ok.inj h
      have ho' := Except.ok.inj h'
      subst ho
      subst ho'
      dsimp only [hbondCore]
      exact core_mono G s _ _ cd ca cd' ca' hB hpi hcd hca
    · rw [if_neg h2] at h h'
      by_cases h3 : ty = "acceptor"
      · rw [if_pos h3] at h h'
        have ho := Except.ok.inj h
        have ho' := Except.ok.inj h'
        subst ho
        subst ho'
        dsimp only [hbondCore]
        exact core_mono G s _ _ cd ca cd' ca' hB hpi hcd hca
      · rw [if_neg h3] at h
        exact absurd h (by simp)

theorem cutoff_monotonicity_witness :
    ∃ o o' : HbondOut,
      hbond Gt s3 [true, true, true] [true, true, true] "donor" 1 150 elemsONS elemsONS =
        Except.ok o' ∧
      hbond Gt s3 [true, true, true] [true, true, true] "donor" (mkRat 5 2) 120
        elemsONS elemsONS = Except.ok o ∧
      o'.triplets.length ≤ o.triplets.length :=
  ⟨⟨[(0, 1, 2)], [[true]], [true, false, true], [true, false, true]⟩,
   ⟨[(0, 1, 2)], [[true]], [true, false, true], [true, false, true]⟩,
   by with_unfolding_all rfl, by with_unfolding_all rfl,
   cutoff_monotonicity Gt s3 [true, true, true] [true, true, true] "donor"
     (mkRat 5 2) 120 1 150 elemsONS elemsONS
     ⟨[(0, 1, 2)], [[true]], [true, false, true], [true, false, true]⟩
     ⟨[(0, 1, 2)], [[true]], [true, false, true], [true, false, true]⟩
     (fun _ _ _ _ => rfl) (by decide) (by decide) (by decide)
     (by with_unfolding_all rfl) (by with_unfolding_all rfl)⟩

end HBond
